import Mathlib

set_option autoImplicit false

/-!
Shallow embedding of `readcolordata` from `src/zplload.c`.

The byte stream (`PACKFILE`) is a list of byte values read front to back; each
primitive reader (`p_getc`, `p_igetw`, `p_igetl`, `pfread`) consumes from the
front and fails when the stream is exhausted, matching the success/failure
contract of the pack readers.  The caller-owned globals (`colordata`,
`palnames`, `*Misc`) form the state `St`; byte arrays are modelled as total
functions from byte index to byte value.  Every successful stream read is
recorded in an event trace so that claims about *which* reads happen (section
header, cycle data, palette names) and in what order can be stated.

The numeric layout constants (`oldpdTOTAL`, `newpdTOTAL`, `newerpdTOTAL`,
`oldpoSPRITE`, `newpoSPRITE`, `newerpoSPRITE`, `OLDMAXLEVELS`, `MAXLEVELS`,
`PALNAMESIZE`) are defined outside this translation unit; the decoder is
parameterised over them by a `Consts` record, so every theorem quantifies over
their values (adding ordering hypotheses only where the semantics of an
overlapping `memcpy` would otherwise be ill-defined).
-/

namespace ZplLoad

abbrev Bytes := List Nat

/-- One color-cycle descriptor: `first`, `count`, `speed` byte fields
(`cycles[i][j]` entries of `miscQdata`). -/
structure Cyc where
  first : Nat
  count : Nat
  speed : Nat
deriving DecidableEq, Repr

/-- The `miscQdata` aggregate: the 256×3 cycle table (modelled as a total
function on indices) plus all its other fields, collapsed into one opaque
`other` component that `readcolordata` never touches. -/
structure Misc where
  cycles : Nat → Nat → Cyc
  other : Nat

/-- Caller-owned destination state: the flat `colordata` byte table, the
`palnames` table (row, byte index), and the `Misc` aggregate. -/
structure St where
  colordata : Nat → Nat
  palnames : Nat → Nat → Nat
  misc : Misc

/-- The layout constants from the format-compatibility table (defined outside
`src/zplload.c`); the decoder is parameterised over their values. -/
structure Consts where
  oldpdTOTAL : Nat
  newpdTOTAL : Nat
  newerpdTOTAL : Nat
  oldpoSPRITE : Nat
  newpoSPRITE : Nat
  newerpoSPRITE : Nat
  OLDMAXLEVELS : Nat
  MAXLEVELS : Nat
  PALNAMESIZE : Nat

/-- `p_getc`: read one byte from the stream. -/
def p_getc : Bytes → Option (Nat × Bytes)
  | [] => none
  | b :: s => some (b, s)

/-- `p_igetw`: read a 16-bit little-endian word (two `p_getc` reads). -/
def p_igetw (s : Bytes) : Option (Nat × Bytes) :=
  match p_getc s with
  | none => none
  | some (b0, s1) =>
    match p_getc s1 with
    | none => none
    | some (b1, s2) => some (b0 + 256 * b1, s2)

/-- `p_igetl`: read a 32-bit little-endian long (four `p_getc` reads). -/
def p_igetl (s : Bytes) : Option (Nat × Bytes) :=
  match p_igetw s with
  | none => none
  | some (w0, s1) =>
    match p_igetw s1 with
    | none => none
    | some (w1, s2) => some (w0 + 65536 * w1, s2)

/-- `pfread n`: read `n` raw bytes into a buffer, failing if fewer remain. -/
def pfread : Nat → Bytes → Option (Bytes × Bytes)
  | 0, s => some ([], s)
  | _ + 1, [] => none
  | n + 1, b :: s =>
    match pfread n s with
    | none => none
    | some (bs, rest) => some (b :: bs, rest)

/-- `memcpy` into a flat byte table: bytes `[dst, dst+len)` take the values of
bytes `[src, src+len)` of the pre-state (the C call sites copy between
non-overlapping regions). -/
def memcpyF (dst src len : Nat) (a : Nat → Nat) : Nat → Nat :=
  fun k => if dst ≤ k ∧ k < dst + len then a (src + (k - dst)) else a k

/-- `memset(..., 0, len)` on a flat byte table. -/
def memsetF (dst len : Nat) (a : Nat → Nat) : Nat → Nat :=
  fun k => if dst ≤ k ∧ k < dst + len then 0 else a k

/-- Commit a freshly read buffer at offset `dst` (the
`memcpy(&colordata[...], temp_colordata, 48)` pattern). -/
def writeBytes (dst : Nat) (bs : Bytes) (a : Nat → Nat) : Nat → Nat :=
  fun k => if dst ≤ k ∧ k < dst + bs.length then bs.getD (k - dst) 0 else a k

/-- Trace events: one per successful stream read, plus markers for the two
relocation blocks and for the `init_palnames` reset path. -/
inductive Ev where
  | hdrSubVersion
  | hdrReserved
  | hdrLength
  | colorRec (i : Nat)
  | relocLegacy
  | relocNew
  | initPal
  | palname (i : Nat)
  | cycCount (n : Nat)
  | cycByte (i j fld : Nat)
deriving DecidableEq, Repr

/-- Result of the decoder: `ok` carries the remaining stream, the final state
and the trace; `invalid` (the `qe_invalid` return) carries the state at the
moment of failure (commits already made to the caller's globals persist) and
the trace of reads performed before the failure. -/
inductive Outcome where
  | ok (s : Bytes) (st : St) (tr : List Ev)
  | invalid (st : St) (tr : List Ev)

def Outcome.stOf : Outcome → St
  | .ok _ st _ => st
  | .invalid st _ => st

def Outcome.trOf : Outcome → List Ev
  | .ok _ _ tr => tr
  | .invalid _ tr => tr

def Outcome.isOk : Outcome → Bool
  | .ok _ _ _ => true
  | .invalid _ _ => false

def prependTr (tr : List Ev) : Outcome → Outcome
  | .ok s st tr' => .ok s st (tr ++ tr')
  | .invalid st tr' => .invalid st (tr ++ tr')

def Outcome.bind : Outcome → (Bytes → St → Outcome) → Outcome
  | .invalid st tr, _ => .invalid st tr
  | .ok s st tr, f => prependTr tr (f s st)

/-- The color-table branch guard at line 69:
`(version < 0x192) || ((version == 0x192) && (build < 73))`. -/
def legacyColorBranch (version build : Nat) : Bool :=
  decide (version < 0x192 ∨ (version = 0x192 ∧ build < 73))

/-- The palette-name branch guard at line 123:
`(version < 0x192) || ((version == 0x192) && (build < 76))`. -/
def legacyNameBranch (version build : Nat) : Bool :=
  decide (version < 0x192 ∨ (version = 0x192 ∧ build < 76))

/-- The 48-byte record read loop (lines 54–67 and its two reuses at lines
85–96 and 108–119): read `n` records, committing record `i0 + m` into
`colordata` when `keepdata` is set. -/
def colorLoop (keep : Bool) : Nat → Nat → Bytes → St → Outcome
  | _, 0, s, st => .ok s st []
  | i0, n + 1, s, st =>
    match pfread 48 s with
    | none => .invalid st []
    | some (bs, s1) =>
      let st1 := if keep then { st with colordata := writeBytes (i0 * 48) bs st.colordata } else st
      prependTr [.colorRec i0] (colorLoop keep (i0 + 1) n s1 st1)

/-- The legacy migration block, lines 73–78, in source order. -/
def legacyRelocate (c : Consts) (a : Nat → Nat) : Nat → Nat :=
  let a1 := memcpyF (c.newerpoSPRITE * 48) (c.oldpoSPRITE * 48) (30 * 16 * 3) a
  let a2 := memsetF (c.oldpoSPRITE * 48) ((c.newerpoSPRITE - c.oldpoSPRITE) * 48) a1
  let a3 := memcpyF ((c.newerpoSPRITE + 11) * 48) ((c.newerpoSPRITE + 10) * 48) 48 a2
  let a4 := memcpyF ((c.newerpoSPRITE + 10) * 48) ((c.newerpoSPRITE + 9) * 48) 48 a3
  let a5 := memcpyF ((c.newerpoSPRITE + 9) * 48) ((c.newerpoSPRITE + 8) * 48) 48 a4
  memsetF ((c.newerpoSPRITE + 8) * 48) 48 a5

/-- The newer migration block, lines 102–103. -/
def newRelocate (c : Consts) (a : Nat → Nat) : Nat → Nat :=
  memsetF (c.newpoSPRITE * 48) ((c.newerpoSPRITE - c.newpoSPRITE) * 48)
    (memcpyF (c.newerpoSPRITE * 48) (c.newpoSPRITE * 48) (30 * 16 * 3) a)

/-- Step 3 of the decode (lines 69–121): legacy relocation, or extended
record reads followed by either the newer relocation (`s_version < 4`) or the
newest record reads. -/
def colorStep3 (c : Consts) (s_version version build : Nat) (keep : Bool)
    (s : Bytes) (st : St) : Outcome :=
  if legacyColorBranch version build then
    if keep then
      .ok s { st with colordata := legacyRelocate c st.colordata } [.relocLegacy]
    else
      .ok s st []
  else
    (colorLoop keep c.oldpdTOTAL (c.newpdTOTAL - c.oldpdTOTAL) s st).bind fun s1 st1 =>
      if s_version < 4 then
        if keep then
          .ok s1 { st1 with colordata := newRelocate c st1.colordata } [.relocNew]
        else
          .ok s1 st1 []
      else
        colorLoop keep c.newpdTOTAL (c.newerpdTOTAL - c.newpdTOTAL) s1 st1

/-- Modelled from the spec: `init_palnames` is not defined in
`src/zplload.c`; §4.1 Step 4 describes it as resetting the whole name table to
its default-initialized (zeroed/empty) state.  We model it as zero-filling
every name slot up to `MAXLEVELS`. -/
def init_palnames (c : Consts) (st : St) : St :=
  { st with palnames := fun i k =>
      if i < c.MAXLEVELS ∧ k < c.PALNAMESIZE then 0 else st.palnames i k }

/-- Name count selection at lines 132–137. -/
def palnamesToRead (c : Consts) (s_version : Nat) : Nat :=
  if s_version < 3 then c.OLDMAXLEVELS else 512

/-- The palette-name read loop (lines 139–152): read `n` fixed-width records,
committing record `i0 + m` into `palnames` when `keepdata` is set. -/
def nameLoop (c : Consts) (keep : Bool) : Nat → Nat → Bytes → St → Outcome
  | _, 0, s, st => .ok s st []
  | i0, n + 1, s, st =>
    match pfread c.PALNAMESIZE s with
    | none => .invalid st []
    | some (bs, s1) =>
      let st1 := if keep then
          { st with palnames := fun i k =>
              if i = i0 ∧ k < c.PALNAMESIZE then bs.getD k 0 else st.palnames i k }
        else st
      prependTr [.palname i0] (nameLoop c keep (i0 + 1) n s1 st1)

/-- Step 4 of the decode (lines 123–161): reset the name table via
`init_palnames` on the legacy branch, else read `palnamesToRead` records and
zero-fill the remaining slots up to `MAXLEVELS` (lines 154–160). -/
def namePhase (c : Consts) (s_version version build : Nat) (keep : Bool)
    (s : Bytes) (st : St) : Outcome :=
  if legacyNameBranch version build then
    if keep then .ok s (init_palnames c st) [.initPal] else .ok s st []
  else
    (nameLoop c keep 0 (palnamesToRead c s_version) s st).bind fun s1 st1 =>
      if keep then
        .ok s1 { st1 with palnames := fun i k =>
            if palnamesToRead c s_version ≤ i ∧ i < c.MAXLEVELS ∧ k < c.PALNAMESIZE then 0
            else st1.palnames i k } []
      else
        .ok s1 st1 []

/-- Zeroing of the working cycle table, lines 165–173. -/
def zeroCycles (m : Misc) : Misc :=
  { m with cycles := fun i j =>
      if i < 256 ∧ j < 3 then ⟨0, 0, 0⟩ else m.cycles i j }

/-- Point update of one field of `temp_misc.cycles[i][j]`
(`fld`: 0 = `first`, 1 = `count`, 2 = `speed`). -/
def setCyc (m : Misc) (i j fld v : Nat) : Misc :=
  { m with cycles := fun i' j' =>
      if i' = i ∧ j' = j then
        match fld with
        | 0 => { m.cycles i j with first := v }
        | 1 => { m.cycles i j with count := v }
        | _ => { m.cycles i j with speed := v }
      else m.cycles i' j' }

/-- Result of the cycle-reading loop, which works on the private `temp_misc`
only: the caller's state is not involved until the final commit. -/
inductive MRes where
  | ok (s : Bytes) (m : Misc) (tr : List Ev)
  | invalid (tr : List Ev)

def mprependTr (tr : List Ev) : MRes → MRes
  | .ok s m tr' => .ok s m (tr ++ tr')
  | .invalid tr' => .invalid (tr ++ tr')

def MRes.trOf : MRes → List Ev
  | .ok _ _ tr => tr
  | .invalid tr => tr

/-- One inner `for(j)` loop of the cycle reader (lines 182–204): three
single-byte reads of field `fld` for slots `j = 0, 1, 2` of cycle index `i`. -/
def cycTriple (i fld : Nat) (s : Bytes) (m : Misc) : MRes :=
  match p_getc s with
  | none => .invalid []
  | some (b0, s1) =>
    let m0 := setCyc m i 0 fld b0
    match p_getc s1 with
    | none => .invalid [.cycByte i 0 fld]
    | some (b1, s2) =>
      let m1 := setCyc m0 i 1 fld b1
      match p_getc s2 with
      | none => .invalid [.cycByte i 0 fld, .cycByte i 1 fld]
      | some (b2, s3) =>
        .ok s3 (setCyc m1 i 2 fld b2) [.cycByte i 0 fld, .cycByte i 1 fld, .cycByte i 2 fld]

/-- The outer `for(i=0; i<palcycles; i++)` loop (lines 180–205): for each
index, three `first` bytes, then three `count` bytes, then three `speed`
bytes. -/
def cycIdxLoop : Nat → Nat → Bytes → Misc → MRes
  | _, 0, s, m => .ok s m []
  | i, n + 1, s, m =>
    match cycTriple i 0 s m with
    | .invalid tr => .invalid tr
    | .ok s1 m1 tr0 =>
      match cycTriple i 1 s1 m1 with
      | .invalid tr => .invalid (tr0 ++ tr)
      | .ok s2 m2 tr1 =>
        match cycTriple i 2 s2 m2 with
        | .invalid tr => .invalid (tr0 ++ tr1 ++ tr)
        | .ok s3 m3 tr2 =>
          mprependTr (tr0 ++ tr1 ++ tr2) (cycIdxLoop (i + 1) n s3 m3)

/-- Step 5 of the decode (lines 163–211): only for `version > 0x192`, zero the
working cycle table, read the 16-bit `palcycles` count, run the cycle loop on
the private copy, and commit the whole aggregate when `keepdata` is set. -/
def cyclePhase (version : Nat) (keep : Bool) (s : Bytes) (st : St) : Outcome :=
  if 0x192 < version then
    match p_igetw s with
    | none => .invalid st []
    | some (n, s1) =>
      match cycIdxLoop 0 n s1 (zeroCycles st.misc) with
      | .invalid tr => .invalid st (.cycCount n :: tr)
      | .ok s2 m2 tr =>
        .ok s2 (if keep then { st with misc := m2 } else st) (.cycCount n :: tr)
  else
    .ok s st []

/-- The body of `readcolordata` after the section header (lines 54–213):
base record loop, step 3, step 4, step 5. -/
def afterHeader (c : Consts) (s_version version build : Nat) (keep : Bool)
    (s : Bytes) (st : St) : Outcome :=
  (colorLoop keep 0 c.oldpdTOTAL s st).bind fun s1 st1 =>
  (colorStep3 c s_version version build keep s1 st1).bind fun s2 st2 =>
  (namePhase c s_version version build keep s2 st2).bind fun s3 st3 =>
  cyclePhase version keep s3 st3

/-- `readcolordata` (lines 19–214): for `version > 0x192`, read the section
header (16-bit sub-version, 16-bit reserved word, 32-bit section length)
first, any failure returning `qe_invalid`; `s_version` defaults to 0 for
older formats. -/
def readcolordata (c : Consts) (version build : Nat) (keep : Bool)
    (s : Bytes) (st : St) : Outcome :=
  if 0x192 < version then
    match p_igetw s with
    | none => .invalid st []
    | some (sv, s1) =>
      match p_igetw s1 with
      | none => .invalid st [.hdrSubVersion]
      | some (_, s2) =>
        match p_igetl s2 with
        | none => .invalid st [.hdrSubVersion, .hdrReserved]
        | some (_, s3) =>
          prependTr [.hdrSubVersion, .hdrReserved, .hdrLength]
            (afterHeader c sv version build keep s3 st)
  else
    afterHeader c 0 version build keep s st

/-- Concrete layout constants used for witnesses and counterexamples (the real
values are outside this translation unit; the branch logic under test does not
depend on them). -/
def c0 : Consts :=
  { oldpdTOTAL := 2, newpdTOTAL := 3, newerpdTOTAL := 4,
    oldpoSPRITE := 0, newpoSPRITE := 1, newerpoSPRITE := 31,
    OLDMAXLEVELS := 1, MAXLEVELS := 2, PALNAMESIZE := 1 }

/-- Concrete initial state for witnesses and counterexamples. -/
def st0 : St :=
  { colordata := fun _ => 0,
    palnames := fun _ _ => 0,
    misc := { cycles := fun _ _ => ⟨0, 0, 0⟩, other := 5 } }

end ZplLoad

namespace ZplLoad

/-- Header events: the three section-header reads of lines 35–50. -/
def Ev.isHdr : Ev → Bool
  | .hdrSubVersion => true
  | .hdrReserved => true
  | .hdrLength => true
  | _ => false

/-- Cycle events: the `palcycles` word read and the per-slot byte reads of
lines 175–205. -/
def Ev.isCyc : Ev → Bool
  | .cycCount _ => true
  | .cycByte _ _ _ => true
  | _ => false

/-- Palette-name read events. -/
def Ev.isPalname : Ev → Bool
  | .palname _ => true
  | _ => false

/-- Specification-side description of the legacy migration (spec §4.1 Step 3,
first bullet), stated pointwise: the 30×16×3-byte block starting at the old
sprite offset appears at the new sprite offset, the vacated gap is zero, the
three 48-byte records at slots 9–11 past the new sprite offset each hold their
predecessor's data, slot 8 is zero, and everything else is untouched. -/
def legacyRelocSpec (c : Consts) (a : Nat → Nat) : Nat → Nat :=
  fun k =>
    if c.newerpoSPRITE * 48 ≤ k ∧ k < (c.newerpoSPRITE + 30) * 48 then
      if (c.newerpoSPRITE + 8) * 48 ≤ k ∧ k < (c.newerpoSPRITE + 9) * 48 then 0
      else if (c.newerpoSPRITE + 9) * 48 ≤ k ∧ k < (c.newerpoSPRITE + 12) * 48 then
        a (c.oldpoSPRITE * 48 + (k - c.newerpoSPRITE * 48) - 48)
      else
        a (c.oldpoSPRITE * 48 + (k - c.newerpoSPRITE * 48))
    else if c.oldpoSPRITE * 48 ≤ k ∧ k < c.newerpoSPRITE * 48 then 0
    else a k

/-- Specification-side cycle read order (spec §4.1 Step 5 / §3): for each
cycle index in turn, three `first` bytes, then three `count` bytes, then three
`speed` bytes, one per slot — field-major. -/
def cycSpecTrace : Nat → Nat → List Ev
  | _, 0 => []
  | i, n + 1 =>
    [.cycByte i 0 0, .cycByte i 1 0, .cycByte i 2 0,
     .cycByte i 0 1, .cycByte i 1 1, .cycByte i 2 1,
     .cycByte i 0 2, .cycByte i 1 2, .cycByte i 2 2] ++ cycSpecTrace (i + 1) n

/-- Specification-side name read order: one fixed-width record per slot,
`i0` through `i0 + n - 1` in order. -/
def nameSpecTrace : Nat → Nat → List Ev
  | _, 0 => []
  | i, n + 1 => .palname i :: nameSpecTrace (i + 1) n

/-- A cycle section declaring 257 cycle indices (count bytes `0x01 0x01`
little-endian) followed by 257 × 9 bytes of cycle data, all of value 1. -/
def s257 : Bytes := 1 :: 1 :: List.replicate 2313 1

/-! ### Projection lemmas -/

@[simp] theorem stOf_prependTr (tr : List Ev) (o : Outcome) :
    (prependTr tr o).stOf = o.stOf := by
  cases o <;> rfl

@[simp] theorem trOf_prependTr (tr : List Ev) (o : Outcome) :
    (prependTr tr o).trOf = tr ++ o.trOf := by
  cases o <;> rfl

@[simp] theorem isOk_prependTr (tr : List Ev) (o : Outcome) :
    (prependTr tr o).isOk = o.isOk := by
  cases o <;> rfl

/-! ### Frame lemmas: which components each phase can touch -/

theorem colorLoop_frame (keep : Bool) (i0 n : Nat) (s : Bytes) (st : St) :
    (colorLoop keep i0 n s st).stOf.palnames = st.palnames ∧
    (colorLoop keep i0 n s st).stOf.misc = st.misc ∧
    (keep = false → (colorLoop keep i0 n s st).stOf = st) := by
  induction n generalizing i0 s st with
  | zero => simp [colorLoop, Outcome.stOf]
  | succ n ih =>
    cases h : pfread 48 s with
    | none => simp [colorLoop, h, Outcome.stOf]
    | some x =>
      obtain ⟨bs, s1⟩ := x
      have := ih (i0 + 1) s1
        (if keep then { st with colordata := writeBytes (i0 * 48) bs st.colordata } else st)
      simp only [colorLoop, h, stOf_prependTr] at this ⊢
      cases keep <;> simp_all

theorem colorStep3_frame (c : Consts) (sv v b : Nat) (keep : Bool) (s : Bytes) (st : St) :
    (colorStep3 c sv v b keep s st).stOf.palnames = st.palnames ∧
    (colorStep3 c sv v b keep s st).stOf.misc = st.misc ∧
    (keep = false → (colorStep3 c sv v b keep s st).stOf = st) := by
  unfold colorStep3
  by_cases hb : legacyColorBranch v b = true
  · cases keep <;> simp [hb, Outcome.stOf]
  · rw [Bool.not_eq_true] at hb
    simp only [hb, Bool.false_eq_true, if_false]
    cases h : colorLoop keep c.oldpdTOTAL (c.newpdTOTAL - c.oldpdTOTAL) s st with
    | invalid st1 tr =>
      have h1 := colorLoop_frame keep c.oldpdTOTAL (c.newpdTOTAL - c.oldpdTOTAL) s st
      rw [h] at h1
      simp only [Outcome.bind, Outcome.stOf] at h1 ⊢
      exact h1
    | ok s1 st1 tr =>
      have h1 := colorLoop_frame keep c.oldpdTOTAL (c.newpdTOTAL - c.oldpdTOTAL) s st
      rw [h] at h1
      simp only [Outcome.stOf] at h1
      have h2 := colorLoop_frame keep c.newpdTOTAL (c.newerpdTOTAL - c.newpdTOTAL) s1 st1
      simp only [Outcome.bind, stOf_prependTr]
      by_cases hv : sv < 4
      · cases keep <;> simp_all [Outcome.stOf]
      · simp only [hv, if_false]
        refine ⟨by rw [h2.1, h1.1], by rw [h2.2.1, h1.2.1], ?_⟩
        intro hk
        rw [h2.2.2 hk, h1.2.2 hk]

theorem nameLoop_frame (c : Consts) (keep : Bool) (i0 n : Nat) (s : Bytes) (st : St) :
    (nameLoop c keep i0 n s st).stOf.colordata = st.colordata ∧
    (nameLoop c keep i0 n s st).stOf.misc = st.misc ∧
    (keep = false → (nameLoop c keep i0 n s st).stOf = st) := by
  induction n generalizing i0 s st with
  | zero => simp [nameLoop, Outcome.stOf]
  | succ n ih =>
    cases h : pfread c.PALNAMESIZE s with
    | none => simp [nameLoop, h, Outcome.stOf]
    | some x =>
      obtain ⟨bs, s1⟩ := x
      have := ih (i0 + 1) s1
        (if keep then
          { st with palnames := fun i k =>
              if i = i0 ∧ k < c.PALNAMESIZE then bs.getD k 0 else st.palnames i k }
        else st)
      simp only [nameLoop, h, stOf_prependTr] at this ⊢
      cases keep <;> simp_all

theorem namePhase_frame (c : Consts) (sv v b : Nat) (keep : Bool) (s : Bytes) (st : St) :
    (namePhase c sv v b keep s st).stOf.colordata = st.colordata ∧
    (namePhase c sv v b keep s st).stOf.misc = st.misc ∧
    (keep = false → (namePhase c sv v b keep s st).stOf = st) := by
  unfold namePhase
  by_cases hb : legacyNameBranch v b = true
  · cases keep <;> simp [hb, Outcome.stOf, init_palnames]
  · rw [Bool.not_eq_true] at hb
    simp only [hb, Bool.false_eq_true, if_false]
    cases h : nameLoop c keep 0 (palnamesToRead c sv) s st with
    | invalid st1 tr =>
      have h1 := nameLoop_frame c keep 0 (palnamesToRead c sv) s st
      rw [h] at h1
      simp only [Outcome.bind, Outcome.stOf] at h1 ⊢
      exact h1
    | ok s1 st1 tr =>
      have h1 := nameLoop_frame c keep 0 (palnamesToRead c sv) s st
      rw [h] at h1
      simp only [Outcome.stOf] at h1
      simp only [Outcome.bind, stOf_prependTr]
      cases keep <;> simp_all [Outcome.stOf]

theorem cyclePhase_frame (v : Nat) (keep : Bool) (s : Bytes) (st : St) :
    (cyclePhase v keep s st).stOf.colordata = st.colordata ∧
    (cyclePhase v keep s st).stOf.palnames = st.palnames ∧
    (keep = false → (cyclePhase v keep s st).stOf = st) ∧
    ((cyclePhase v keep s st).isOk = false → (cyclePhase v keep s st).stOf = st) := by
  unfold cyclePhase
  by_cases hv : 0x192 < v
  · simp only [hv, if_true]
    cases h : p_igetw s with
    | none => simp [h, Outcome.stOf, Outcome.isOk]
    | some x =>
      obtain ⟨n, s1⟩ := x
      cases h2 : cycIdxLoop 0 n s1 (zeroCycles st.misc) with
      | invalid tr => simp [h, h2, Outcome.stOf, Outcome.isOk]
      | ok s2 m2 tr => cases keep <;> simp [h, h2, Outcome.stOf, Outcome.isOk]
  · simp [hv, Outcome.stOf, Outcome.isOk]

end ZplLoad

namespace ZplLoad

@[simp] theorem bind_ok (s : Bytes) (st : St) (tr : List Ev) (f : Bytes → St → Outcome) :
    (Outcome.ok s st tr).bind f = prependTr tr (f s st) := rfl

@[simp] theorem bind_invalid (st : St) (tr : List Ev) (f : Bytes → St → Outcome) :
    (Outcome.invalid st tr).bind f = .invalid st tr := rfl

theorem bind_stOf_eq {o : Outcome} {f : Bytes → St → Outcome} {st : St}
    (ho : o.stOf = st) (hf : ∀ s' st', st' = st → (f s' st').stOf = st) :
    (o.bind f).stOf = st := by
  cases o with
  | invalid st1 tr => exact ho
  | ok s1 st1 tr =>
    rw [bind_ok, stOf_prependTr]
    exact hf s1 st1 ho

theorem afterHeader_keepFalse (c : Consts) (sv v b : Nat) (s : Bytes) (st : St) :
    (afterHeader c sv v b false s st).stOf = st := by
  unfold afterHeader
  apply bind_stOf_eq ((colorLoop_frame false 0 c.oldpdTOTAL s st).2.2 rfl)
  intro s1 st1 h1
  apply bind_stOf_eq (((colorStep3_frame c sv v b false s1 st1).2.2 rfl).trans h1)
  intro s2 st2 h2
  apply bind_stOf_eq (((namePhase_frame c sv v b false s2 st2).2.2 rfl).trans h2)
  intro s3 st3 h3
  exact ((cyclePhase_frame v false s3 st3).2.2.1 rfl).trans h3

theorem readcolordata_keepFalse (c : Consts) (v b : Nat) (s : Bytes) (st : St) :
    (readcolordata c v b false s st).stOf = st := by
  unfold readcolordata
  by_cases hv : 0x192 < v
  · simp only [hv, if_true]
    cases h1 : p_igetw s with
    | none => rfl
    | some x1 =>
      obtain ⟨sv, s1⟩ := x1
      cases h2 : p_igetw s1 with
      | none => simp only [h2]; rfl
      | some x2 =>
        obtain ⟨d1, s2⟩ := x2
        cases h3 : p_igetl s2 with
        | none => simp only [h2, h3]; rfl
        | some x3 =>
          obtain ⟨d2, s3⟩ := x3
          simp only [h2, h3, stOf_prependTr]
          exact afterHeader_keepFalse c sv v b s3 st
  · simp only [hv, if_false]
    exact afterHeader_keepFalse c 0 v b s st

end ZplLoad

namespace ZplLoad

/-! ### The private working copy: cycle-loop lemmas -/

theorem setCyc_other (m : Misc) (i j fld v : Nat) : (setCyc m i j fld v).other = m.other := rfl

theorem zeroCycles_other (m : Misc) : (zeroCycles m).other = m.other := rfl

theorem cycTriple_ok {i fld : Nat} {s : Bytes} {m : Misc} {s' : Bytes} {m' : Misc} {tr : List Ev}
    (h : cycTriple i fld s m = .ok s' m' tr) :
    m'.other = m.other ∧ tr = [.cycByte i 0 fld, .cycByte i 1 fld, .cycByte i 2 fld] := by
  rcases s with _ | ⟨b0, s⟩
  · simp [cycTriple, p_getc] at h
  · rcases s with _ | ⟨b1, s⟩
    · simp [cycTriple, p_getc] at h
    · rcases s with _ | ⟨b2, s⟩
      · simp [cycTriple, p_getc] at h
      · simp only [cycTriple, p_getc] at h
        injection h with h1 h2 h3
        subst h2
        subst h3
        exact ⟨rfl, rfl⟩

theorem cycIdxLoop_ok {n i : Nat} {s : Bytes} {m : Misc} {s' : Bytes} {m' : Misc} {tr : List Ev}
    (h : cycIdxLoop i n s m = .ok s' m' tr) :
    m'.other = m.other ∧ tr = cycSpecTrace i n := by
  induction n generalizing i s m tr s' m' with
  | zero =>
    simp only [cycIdxLoop] at h
    injection h with h1 h2 h3
    subst h2
    subst h3
    exact ⟨rfl, rfl⟩
  | succ n ih =>
    simp only [cycIdxLoop] at h
    cases h0 : cycTriple i 0 s m with
    | invalid tr0 => simp [h0] at h
    | ok s1 m1 tr0 =>
      simp only [h0] at h
      cases h1 : cycTriple i 1 s1 m1 with
      | invalid tr1 => simp [h1] at h
      | ok s2 m2 tr1 =>
        simp only [h1] at h
        cases h2 : cycTriple i 2 s2 m2 with
        | invalid tr2 => simp [h2] at h
        | ok s3 m3 tr2 =>
          simp only [h2] at h
          cases hrec : cycIdxLoop (i + 1) n s3 m3 with
          | invalid tr4 => simp [hrec, mprependTr] at h
          | ok s4 m4 tr4 =>
            simp only [hrec, mprependTr] at h
            injection h with e1 e2 e3
            subst e1
            subst e2
            subst e3
            obtain ⟨ho0, ht0⟩ := cycTriple_ok h0
            obtain ⟨ho1, ht1⟩ := cycTriple_ok h1
            obtain ⟨ho2, ht2⟩ := cycTriple_ok h2
            obtain ⟨ho4, ht4⟩ := ih hrec
            subst ht0
            subst ht1
            subst ht2
            constructor
            · rw [ho4, ho2, ho1, ho0]
            · simp [cycSpecTrace, ht4]

theorem cyclePhase_ok_other (v : Nat) (keep : Bool) (s : Bytes) (st : St)
    (h : (cyclePhase v keep s st).isOk = true) :
    (cyclePhase v keep s st).stOf.misc.other = st.misc.other := by
  unfold cyclePhase at h ⊢
  by_cases hv : 0x192 < v
  · simp only [hv, if_true] at h ⊢
    cases h1 : p_igetw s with
    | none => simp [h1, Outcome.isOk] at h
    | some x =>
      obtain ⟨n, s1⟩ := x
      cases h2 : cycIdxLoop 0 n s1 (zeroCycles st.misc) with
      | invalid tr => simp [h1, h2, Outcome.isOk] at h
      | ok s2 m2 tr =>
        have hm : m2.other = st.misc.other := by
          rw [(cycIdxLoop_ok h2).1, zeroCycles_other]
        cases keep <;> simp [h1, h2, Outcome.stOf, hm]
  · simp [hv, Outcome.stOf]

/-! ### Misc preservation through the phases -/

theorem bind_misc {o : Outcome} {f : Bytes → St → Outcome} {st : St}
    (ho : o.stOf.misc = st.misc)
    (hf : ∀ s' st', st'.misc = st.misc →
      (((f s' st').isOk = false → (f s' st').stOf.misc = st.misc) ∧
       ((f s' st').isOk = true → (f s' st').stOf.misc.other = st.misc.other))) :
    (((o.bind f).isOk = false → (o.bind f).stOf.misc = st.misc) ∧
     ((o.bind f).isOk = true → (o.bind f).stOf.misc.other = st.misc.other)) := by
  cases o with
  | invalid st1 tr =>
    exact ⟨fun _ => ho, fun hbad => absurd hbad (by simp [Outcome.bind, Outcome.isOk])⟩
  | ok s1 st1 tr =>
    rw [bind_ok]
    refine ⟨fun hbad => ?_, fun hok => ?_⟩
    · rw [stOf_prependTr]
      exact (hf s1 st1 ho).1 (by rwa [isOk_prependTr] at hbad)
    · rw [stOf_prependTr]
      exact (hf s1 st1 ho).2 (by rwa [isOk_prependTr] at hok)

theorem afterHeader_misc (c : Consts) (sv v b : Nat) (keep : Bool) (s : Bytes) (st : St) :
    ((afterHeader c sv v b keep s st).isOk = false →
      (afterHeader c sv v b keep s st).stOf.misc = st.misc) ∧
    ((afterHeader c sv v b keep s st).isOk = true →
      (afterHeader c sv v b keep s st).stOf.misc.other = st.misc.other) := by
  unfold afterHeader
  apply bind_misc ((colorLoop_frame keep 0 c.oldpdTOTAL s st).2.1)
  intro s1 st1 e1
  apply bind_misc (((colorStep3_frame c sv v b keep s1 st1).2.1).trans e1)
  intro s2 st2 e2
  apply bind_misc (((namePhase_frame c sv v b keep s2 st2).2.1).trans e2)
  intro s3 st3 e3
  refine ⟨fun hbad => ?_, fun hok => ?_⟩
  · rw [(cyclePhase_frame v keep s3 st3).2.2.2 hbad, e3]
  · rw [cyclePhase_ok_other v keep s3 st3 hok, e3]

theorem readcolordata_misc (c : Consts) (v b : Nat) (keep : Bool) (s : Bytes) (st : St) :
    ((readcolordata c v b keep s st).isOk = false →
      (readcolordata c v b keep s st).stOf.misc = st.misc) ∧
    ((readcolordata c v b keep s st).isOk = true →
      (readcolordata c v b keep s st).stOf.misc.other = st.misc.other) := by
  unfold readcolordata
  by_cases hv : 0x192 < v
  · simp only [hv, if_true]
    cases h1 : p_igetw s with
    | none => exact ⟨fun _ => rfl, by simp [Outcome.isOk]⟩
    | some x1 =>
      obtain ⟨sv, s1⟩ := x1
      cases h2 : p_igetw s1 with
      | none => simp only [h2]; exact ⟨fun _ => rfl, by simp [Outcome.isOk]⟩
      | some x2 =>
        obtain ⟨d1, s2⟩ := x2
        cases h3 : p_igetl s2 with
        | none => simp only [h2, h3]; exact ⟨fun _ => rfl, by simp [Outcome.isOk]⟩
        | some x3 =>
          obtain ⟨d2, s3⟩ := x3
          simp only [h2, h3, isOk_prependTr, stOf_prependTr]
          exact afterHeader_misc c sv v b keep s3 st
  · simp only [hv, if_false]
    exact afterHeader_misc c 0 v b keep s st

end ZplLoad

namespace ZplLoad

/-- C1 counterexample: at `version = 0x190`, `keepdata = true`, with a stream
holding exactly one 48-byte record (all bytes 7) and nothing more, the second
base-record read fails, `readcolordata` returns `InvalidFormat`, and yet the
caller's color-record table now holds the first committed record (byte 0
changed from 0 to 7): a failed decode with `keepdata = true` does leave a
destination table partially updated. -/
theorem claim_C1_counterexample :
    (readcolordata c0 0x190 0 true (List.replicate 48 7) st0).isOk = false ∧
    (readcolordata c0 0x190 0 true (List.replicate 48 7) st0).stOf.colordata 0 = 7 ∧
    st0.colordata 0 = 0 := by
  refine ⟨by decide, by decide, rfl⟩

/-- C1 (amended): when `readcolordata` returns `InvalidFormat`, the caller's
`Misc` aggregate (hence the cycle table) holds exactly its pre-call value, and
with `keepdata = false` every caller-owned table is untouched; with
`keepdata = true` the color-record and palette-name tables may retain records
already committed before the failing read. -/
theorem claim_C1_amended (c : Consts) (v b : Nat) (keep : Bool) (s : Bytes) (st : St)
    (h : (readcolordata c v b keep s st).isOk = false) :
    (readcolordata c v b keep s st).stOf.misc = st.misc ∧
    (keep = false → (readcolordata c v b keep s st).stOf = st) := by
  refine ⟨(readcolordata_misc c v b keep s st).1 h, fun hk => ?_⟩
  subst hk
  exact readcolordata_keepFalse c v b s st

/-- C1 witness: the amended theorem applied to the concrete failing decode of
the counterexample. -/
theorem claim_C1_witness :
    (readcolordata c0 0x190 0 true (List.replicate 48 7) st0).stOf.misc = st0.misc ∧
    (true = false → (readcolordata c0 0x190 0 true (List.replicate 48 7) st0).stOf = st0) :=
  claim_C1_amended c0 0x190 0 true (List.replicate 48 7) st0 (by decide)

/-- C2: a call with `keepdata = false` leaves every caller-owned destination
table (color-record table, palette-name table, `Misc` aggregate) unchanged,
for every stream, version and build, whether the decode succeeds or fails. -/
theorem claim_C2 (c : Consts) (v b : Nat) (s : Bytes) (st : St) :
    (readcolordata c v b false s st).stOf = st :=
  readcolordata_keepFalse c v b s st

/-- C5: the branch guards are exact at the build thresholds: at
`version = 0x192`, `build = 73` leaves the legacy color branch and `build = 76`
leaves the name-reset branch, while `build = 72` and `build = 75` stay on the
legacy branches; concrete decodes at the four boundary builds confirm the
behaviour (extended reads / legacy relocation, name reads / name reset). -/
theorem claim_C5 :
    legacyColorBranch 0x192 73 = false ∧
    legacyColorBranch 0x192 72 = true ∧
    legacyNameBranch 0x192 76 = false ∧
    legacyNameBranch 0x192 75 = true ∧
    (Ev.relocNew ∈ (readcolordata c0 0x192 73 true (List.replicate 144 0) st0).trOf ∧
      Ev.relocLegacy ∉ (readcolordata c0 0x192 73 true (List.replicate 144 0) st0).trOf ∧
      Ev.colorRec 2 ∈ (readcolordata c0 0x192 73 true (List.replicate 144 0) st0).trOf) ∧
    (Ev.relocLegacy ∈ (readcolordata c0 0x192 72 true (List.replicate 96 0) st0).trOf ∧
      Ev.colorRec 2 ∉ (readcolordata c0 0x192 72 true (List.replicate 96 0) st0).trOf) ∧
    (Ev.palname 0 ∈ (readcolordata c0 0x192 76 true (List.replicate 145 0) st0).trOf ∧
      Ev.initPal ∉ (readcolordata c0 0x192 76 true (List.replicate 145 0) st0).trOf) ∧
    (Ev.initPal ∈ (readcolordata c0 0x192 75 true (List.replicate 144 0) st0).trOf ∧
      Ev.palname 0 ∉ (readcolordata c0 0x192 75 true (List.replicate 144 0) st0).trOf) := by
  decide

/-- C10: on a successful decode with `keepdata = true` and `version > 0x192`,
every component of the caller's `Misc` aggregate other than the cycle table
(collapsed into the `other` field of the model) holds the same value after the
call as before it: the working copy starts as a copy of the caller's `Misc`,
the cycle loop touches only its `cycles`, and the final commit copies the
aggregate back whole. -/
theorem claim_C10 (c : Consts) (v b : Nat) (s : Bytes) (st : St)
    (hv : 0x192 < v) (h : (readcolordata c v b true s st).isOk = true) :
    (readcolordata c v b true s st).stOf.misc.other = st.misc.other :=
  (readcolordata_misc c v b true s st).2 h

/-- C10 witness: a concrete successful decode at `version = 0x193` (header,
three color records, one palette name, zero cycles) preserves the non-cycle
part of `Misc`. -/
theorem claim_C10_witness :
    (readcolordata c0 0x193 0 true (List.replicate 155 0) st0).stOf.misc.other =
      st0.misc.other :=
  claim_C10 c0 0x193 0 (List.replicate 155 0) st0 (by decide) (by decide)

end ZplLoad

namespace ZplLoad

theorem p_igetw_some {s : Bytes} {x : Nat × Bytes} (h : p_igetw s = some x) :
    2 ≤ s.length ∧ x.2 = s.drop 2 := by
  rcases s with _ | ⟨b0, s⟩
  · simp [p_igetw, p_getc] at h
  · rcases s with _ | ⟨b1, s⟩
    · simp [p_igetw, p_getc] at h
    · simp only [p_igetw, p_getc] at h
      injection h with h1
      subst h1
      exact ⟨by simp, rfl⟩

theorem p_igetl_some {s : Bytes} {x : Nat × Bytes} (h : p_igetl s = some x) :
    4 ≤ s.length ∧ x.2 = s.drop 4 := by
  unfold p_igetl at h
  cases h1 : p_igetw s with
  | none => rw [h1] at h; exact absurd h (by simp)
  | some x1 =>
    obtain ⟨w0, s1⟩ := x1
    obtain ⟨hl1, hs1⟩ := p_igetw_some h1
    simp only [h1] at h
    cases h2 : p_igetw s1 with
    | none => rw [h2] at h; exact absurd h (by simp)
    | some x2 =>
      obtain ⟨w1, s2⟩ := x2
      obtain ⟨hl2, hs2⟩ := p_igetw_some h2
      simp only [h2] at h
      injection h with h3
      subst h3
      simp only at hs1 hs2
      subst hs1
      subst hs2
      constructor
      · simp at hl2 ⊢
        omega
      · simp [List.drop_drop]

/-- C4: for every `version > 0x192`, the three section-header fields are the
first things read from the stream — whenever the trace contains any non-header
event, it starts with the three header reads in order — and a stream too short
to hold the 8 header bytes makes the decode fail with `InvalidFormat` and the
caller's state (in particular the color-record table, with zero records
committed) exactly as before the call. -/
theorem claim_C4 (c : Consts) (v b : Nat) (keep : Bool) (s : Bytes) (st : St)
    (hv : 0x192 < v) :
    ((∃ e ∈ (readcolordata c v b keep s st).trOf, e.isHdr = false) →
      (readcolordata c v b keep s st).trOf.take 3 =
        [Ev.hdrSubVersion, Ev.hdrReserved, Ev.hdrLength]) ∧
    (s.length < 8 →
      (readcolordata c v b keep s st).isOk = false ∧
      (readcolordata c v b keep s st).stOf = st) := by
  unfold readcolordata
  simp only [hv, if_true]
  cases h1 : p_igetw s with
  | none =>
    constructor
    · rintro ⟨e, he, -⟩
      simp [Outcome.trOf] at he
    · intro hlen
      exact ⟨rfl, rfl⟩
  | some x1 =>
    obtain ⟨sv, s1⟩ := x1
    obtain ⟨hl1, hs1⟩ := p_igetw_some h1
    simp only at hs1
    subst hs1
    cases h2 : p_igetw (s.drop 2) with
    | none =>
      simp only [h2]
      constructor
      · rintro ⟨e, he, hne⟩
        simp [Outcome.trOf] at he
        subst he
        simp [Ev.isHdr] at hne
      · intro hlen
        exact ⟨rfl, rfl⟩
    | some x2 =>
      obtain ⟨d1, s2⟩ := x2
      obtain ⟨hl2, hs2⟩ := p_igetw_some h2
      simp only at hs2
      subst hs2
      cases h3 : p_igetl ((s.drop 2).drop 2) with
      | none =>
        simp only [h2, h3]
        constructor
        · rintro ⟨e, he, hne⟩
          simp [Outcome.trOf] at he
          rcases he with he | he <;> (subst he; simp [Ev.isHdr] at hne)
        · intro hlen
          exact ⟨rfl, rfl⟩
      | some x3 =>
        obtain ⟨d2, s3⟩ := x3
        obtain ⟨hl3, hs3⟩ := p_igetl_some h3
        simp only [h2, h3, trOf_prependTr, isOk_prependTr, stOf_prependTr]
        constructor
        · intro _
          rfl
        · intro hlen
          exfalso
          simp at hl2 hl3
          omega

/-- C4 witness: a 3-byte stream at `version = 0x193` cannot hold the header;
the decode fails and the state is untouched. -/
theorem claim_C4_witness :
    ((∃ e ∈ (readcolordata c0 0x193 0 true [1, 2, 3] st0).trOf, e.isHdr = false) →
      (readcolordata c0 0x193 0 true [1, 2, 3] st0).trOf.take 3 =
        [Ev.hdrSubVersion, Ev.hdrReserved, Ev.hdrLength]) ∧
    (([1, 2, 3] : Bytes).length < 8 →
      (readcolordata c0 0x193 0 true [1, 2, 3] st0).isOk = false ∧
      (readcolordata c0 0x193 0 true [1, 2, 3] st0).stOf = st0) :=
  claim_C4 c0 0x193 0 true [1, 2, 3] st0 (by decide)

end ZplLoad

namespace ZplLoad

/-! ### Trace classification lemmas -/

theorem colorLoop_ev {keep : Bool} {i0 n : Nat} {s : Bytes} {st : St} :
    ∀ e ∈ (colorLoop keep i0 n s st).trOf, ∃ i, e = Ev.colorRec i := by
  induction n generalizing i0 s st with
  | zero => simp [colorLoop, Outcome.trOf]
  | succ n ih =>
    cases h : pfread 48 s with
    | none => simp [colorLoop, h, Outcome.trOf]
    | some x =>
      obtain ⟨bs, s1⟩ := x
      simp only [colorLoop, h, trOf_prependTr]
      intro e he
      rcases List.mem_append.1 he with he | he
      · exact ⟨i0, by simpa using he⟩
      · exact ih e he

theorem nameLoop_ev {c : Consts} {keep : Bool} {i0 n : Nat} {s : Bytes} {st : St} :
    ∀ e ∈ (nameLoop c keep i0 n s st).trOf, ∃ i, e = Ev.palname i := by
  induction n generalizing i0 s st with
  | zero => simp [nameLoop, Outcome.trOf]
  | succ n ih =>
    cases h : pfread c.PALNAMESIZE s with
    | none => simp [nameLoop, h, Outcome.trOf]
    | some x =>
      obtain ⟨bs, s1⟩ := x
      simp only [nameLoop, h, trOf_prependTr]
      intro e he
      rcases List.mem_append.1 he with he | he
      · exact ⟨i0, by simpa using he⟩
      · exact ih e he

theorem mem_bind_trOf {o : Outcome} {f : Bytes → St → Outcome} {e : Ev}
    (he : e ∈ (o.bind f).trOf) :
    e ∈ o.trOf ∨ ∃ s' st', e ∈ (f s' st').trOf := by
  cases o with
  | invalid st tr => exact Or.inl he
  | ok s1 st1 tr =>
    rw [bind_ok, trOf_prependTr] at he
    rcases List.mem_append.1 he with he | he
    · exact Or.inl he
    · exact Or.inr ⟨s1, st1, he⟩

theorem colorStep3_ev {c : Consts} {sv v b : Nat} {keep : Bool} {s : Bytes} {st : St} :
    ∀ e ∈ (colorStep3 c sv v b keep s st).trOf,
      (∃ i, e = Ev.colorRec i) ∨ e = Ev.relocLegacy ∨ e = Ev.relocNew := by
  unfold colorStep3
  intro e he
  by_cases hb : legacyColorBranch v b = true
  · rw [if_pos hb] at he
    cases keep <;> simp [Outcome.trOf] at he
    exact Or.inr (Or.inl he)
  · rw [Bool.not_eq_true] at hb
    rw [hb] at he
    simp only [Bool.false_eq_true, if_false] at he
    rcases mem_bind_trOf he with he | ⟨s1, st1, he⟩
    · exact Or.inl (colorLoop_ev e he)
    · by_cases hsv : sv < 4
      · rw [if_pos hsv] at he
        cases keep <;> simp [Outcome.trOf] at he
        exact Or.inr (Or.inr he)
      · rw [if_neg hsv] at he
        exact Or.inl (colorLoop_ev e he)

theorem namePhase_ev_legacy {c : Consts} {sv v b : Nat} {keep : Bool} {s : Bytes} {st : St}
    (hb : legacyNameBranch v b = true) :
    ∀ e ∈ (namePhase c sv v b keep s st).trOf, e = Ev.initPal := by
  unfold namePhase
  rw [if_pos hb]
  cases keep <;> simp [Outcome.trOf]

theorem namePhase_ev_new {c : Consts} {sv v b : Nat} {keep : Bool} {s : Bytes} {st : St}
    (hb : legacyNameBranch v b = false) :
    ∀ e ∈ (namePhase c sv v b keep s st).trOf, ∃ i, e = Ev.palname i := by
  unfold namePhase
  rw [hb]
  simp only [Bool.false_eq_true, if_false]
  intro e he
  rcases mem_bind_trOf he with he | ⟨s1, st1, he⟩
  · exact nameLoop_ev e he
  · cases keep <;> simp [Outcome.trOf] at he

theorem cyclePhase_le {v : Nat} {keep : Bool} {s : Bytes} {st : St}
    (hv : ¬ 0x192 < v) : cyclePhase v keep s st = .ok s st [] := by
  simp [cyclePhase, hv]

theorem afterHeader_ev {c : Consts} {sv v b : Nat} {keep : Bool} {s : Bytes} {st : St}
    (hv : ¬ 0x192 < v) :
    ∀ e ∈ (afterHeader c sv v b keep s st).trOf,
      (∃ i, e = Ev.colorRec i) ∨ e = Ev.relocLegacy ∨ e = Ev.relocNew ∨
      (legacyNameBranch v b = true ∧ e = Ev.initPal) ∨
      (legacyNameBranch v b = false ∧ ∃ i, e = Ev.palname i) := by
  unfold afterHeader
  intro e he
  rcases mem_bind_trOf he with he | ⟨s1, st1, he⟩
  · exact Or.inl (colorLoop_ev e he)
  · rcases mem_bind_trOf he with he | ⟨s2, st2, he⟩
    · rcases colorStep3_ev e he with h | h | h
      · exact Or.inl h
      · exact Or.inr (Or.inl h)
      · exact Or.inr (Or.inr (Or.inl h))
    · rcases mem_bind_trOf he with he | ⟨s3, st3, he⟩
      · cases hb : legacyNameBranch v b with
        | true => exact Or.inr (Or.inr (Or.inr (Or.inl ⟨rfl, namePhase_ev_legacy hb e he⟩)))
        | false => exact Or.inr (Or.inr (Or.inr (Or.inr ⟨rfl, namePhase_ev_new hb e he⟩)))
      · rw [cyclePhase_le hv] at he
        simp [Outcome.trOf] at he

theorem bind_isOk_decomp {o : Outcome} {f : Bytes → St → Outcome}
    (h : (o.bind f).isOk = true) :
    ∃ s1 st1 tr1, o = .ok s1 st1 tr1 ∧ (f s1 st1).isOk = true ∧
      (o.bind f).trOf = tr1 ++ (f s1 st1).trOf := by
  cases o with
  | invalid st tr => simp [Outcome.bind, Outcome.isOk] at h
  | ok s1 st1 tr1 =>
    refine ⟨s1, st1, tr1, rfl, ?_, by simp⟩
    rw [bind_ok, isOk_prependTr] at h
    exact h

theorem afterHeader_ok_initPal {c : Consts} {sv v b : Nat} {s : Bytes} {st : St}
    (hb : legacyNameBranch v b = true)
    (hok : (afterHeader c sv v b true s st).isOk = true) :
    Ev.initPal ∈ (afterHeader c sv v b true s st).trOf := by
  unfold afterHeader at hok ⊢
  obtain ⟨s1, st1, tr1, e1, hok1, htr1⟩ := bind_isOk_decomp hok
  rw [htr1]
  refine List.mem_append_right _ ?_
  obtain ⟨s2, st2, tr2, e2, hok2, htr2⟩ := bind_isOk_decomp hok1
  rw [htr2]
  refine List.mem_append_right _ ?_
  have hname : namePhase c sv v b true s2 st2 = .ok s2 (init_palnames c st2) [Ev.initPal] := by
    unfold namePhase
    rw [if_pos hb]
    rfl
  rw [hname, bind_ok, trOf_prependTr]
  simp

end ZplLoad

namespace ZplLoad

/-- C3 counterexample: at `version = 0x192`, `build = 76`, `keepdata = true`,
a well-formed stream decodes successfully, the palette names are read by the
name-reading loop, and the dedicated reset path (`init_palnames`) is never
invoked — so "for every version ≤ 0x192 and every build, palette names are
always reset via the dedicated reset path" is false at this input. -/
theorem claim_C3_counterexample :
    (0x192 : Nat) ≤ 0x192 ∧
    (readcolordata c0 0x192 76 true (List.replicate 145 0) st0).isOk = true ∧
    Ev.initPal ∉ (readcolordata c0 0x192 76 true (List.replicate 145 0) st0).trOf ∧
    Ev.palname 0 ∈ (readcolordata c0 0x192 76 true (List.replicate 145 0) st0).trOf := by
  decide

/-- C3 (amended): for every `version ≤ 0x192` the decoder never reads a
section header and never reads color-cycle data; palette names go through the
dedicated reset path exactly on the legacy name branch of line 123 — whenever
`version < 0x192` (at every build) or `build < 76`, no name record is ever
read and every successful committed decode invokes `init_palnames`; only for
`version = 0x192` with `build ≥ 76` is the reset path never used (the
name-reading loop runs instead). -/
theorem claim_C3_amended (c : Consts) (v b : Nat) (keep : Bool) (s : Bytes) (st : St)
    (hv : v ≤ 0x192) :
    (∀ e ∈ (readcolordata c v b keep s st).trOf, e.isHdr = false ∧ e.isCyc = false) ∧
    (v < 0x192 ∨ b < 76 → ∀ e ∈ (readcolordata c v b keep s st).trOf, e.isPalname = false) ∧
    (v < 0x192 ∨ b < 76 → keep = true → (readcolordata c v b keep s st).isOk = true →
      Ev.initPal ∈ (readcolordata c v b keep s st).trOf) ∧
    (v = 0x192 → 76 ≤ b → Ev.initPal ∉ (readcolordata c v b keep s st).trOf) := by
  have hv' : ¬ 0x192 < v := by omega
  have hrw : readcolordata c v b keep s st = afterHeader c 0 v b keep s st := by
    unfold readcolordata
    rw [if_neg hv']
  rw [hrw]
  refine ⟨?_, ?_, ?_, ?_⟩
  · intro e he
    rcases afterHeader_ev hv' e he with ⟨i, rfl⟩ | rfl | rfl | ⟨-, rfl⟩ | ⟨-, ⟨i, rfl⟩⟩ <;>
      exact ⟨rfl, rfl⟩
  · intro hb e he
    rcases afterHeader_ev hv' e he with ⟨i, rfl⟩ | rfl | rfl | ⟨-, rfl⟩ | ⟨hfalse, -⟩
    · rfl
    · rfl
    · rfl
    · rfl
    · have hbr : legacyNameBranch v b = true := by
        simp only [legacyNameBranch, decide_eq_true_eq]
        omega
      rw [hbr] at hfalse
      simp at hfalse
  · intro hb hk hok
    subst hk
    have hbr : legacyNameBranch v b = true := by
      simp only [legacyNameBranch, decide_eq_true_eq]
      omega
    exact afterHeader_ok_initPal hbr hok
  · intro hveq hble he
    rcases afterHeader_ev hv' _ he with ⟨i, h⟩ | h | h | ⟨htrue, -⟩ | ⟨-, i, h⟩
    · simp at h
    · simp at h
    · simp at h
    · have hbr : legacyNameBranch v b = false := by
        simp only [legacyNameBranch, decide_eq_false_iff_not]
        omega
      rw [hbr] at htrue
      simp at htrue
    · simp at h

/-- C3 witness: the amended theorem at a concrete legacy decode
(`version = 0x190`, `build = 0`, `keepdata = true`, 96-byte stream). -/
theorem claim_C3_witness :
    (∀ e ∈ (readcolordata c0 0x190 0 true (List.replicate 96 0) st0).trOf,
      e.isHdr = false ∧ e.isCyc = false) ∧
    ((0x190 : Nat) < 0x192 ∨ (0 : Nat) < 76 →
      ∀ e ∈ (readcolordata c0 0x190 0 true (List.replicate 96 0) st0).trOf,
      e.isPalname = false) ∧
    ((0x190 : Nat) < 0x192 ∨ (0 : Nat) < 76 → true = true →
      (readcolordata c0 0x190 0 true (List.replicate 96 0) st0).isOk = true →
      Ev.initPal ∈ (readcolordata c0 0x190 0 true (List.replicate 96 0) st0).trOf) ∧
    ((0x190 : Nat) = 0x192 → 76 ≤ 0 →
      Ev.initPal ∉ (readcolordata c0 0x190 0 true (List.replicate 96 0) st0).trOf) :=
  claim_C3_amended c0 0x190 0 true (List.replicate 96 0) st0 (by decide)

end ZplLoad

namespace ZplLoad

set_option maxRecDepth 100000

/-- C9: evaluation of the cycle step (lines 163–211 via its loop, lines
180–205) at the failing input: `version = 0x193`, a cycle count of 257
(bytes `0x01 0x01`) followed by 257 × 9 data bytes of value 1.  The decode
succeeds, the loop performs byte reads for cycle index 256, and the committed
table holds data at index 256 — one past the last valid index of the
256-entry C array `cycles[256][3]`, i.e. an out-of-bounds write in the
original code. -/
theorem claim_C9_overflow :
    (cyclePhase 0x193 true s257 st0).isOk = true ∧
    Ev.cycByte 256 0 0 ∈ (cyclePhase 0x193 true s257 st0).trOf ∧
    (cyclePhase 0x193 true s257 st0).stOf.misc.cycles 256 0 = ⟨1, 1, 1⟩ := by
  refine ⟨by decide, by decide, by decide⟩

/-- C7: for `version > 0x192` the cycle step zeroes the whole working cycle
table, then reads the 16-bit count `n`; on success of the per-index loop the
result commits the worked table (when `keepdata`) and the trace is the
field-major read order `cycSpecTrace`: for each index, three `first` bytes,
then three `count` bytes, then three `speed` bytes.  In particular a stream
declaring 0 cycle indices commits the zeroed table: every entry of the 256×3
table is `⟨0,0,0⟩`. -/
theorem claim_C7 (v : Nat) (keep : Bool) (s s1 : Bytes) (st : St) (n : Nat)
    (hv : 0x192 < v) (hw : p_igetw s = some (n, s1)) :
    (∀ s2 m2 tr, cycIdxLoop 0 n s1 (zeroCycles st.misc) = MRes.ok s2 m2 tr →
      cyclePhase v keep s st =
        .ok s2 (if keep then { st with misc := m2 } else st)
          (Ev.cycCount n :: cycSpecTrace 0 n)) ∧
    (n = 0 → cyclePhase v keep s st =
      .ok s1 (if keep then { st with misc := zeroCycles st.misc } else st) [Ev.cycCount 0]) ∧
    (n = 0 → keep = true → ∀ i j, i < 256 → j < 3 →
      (cyclePhase v keep s st).stOf.misc.cycles i j = ⟨0, 0, 0⟩) := by
  unfold cyclePhase
  simp only [hv, if_true, hw]
  refine ⟨?_, ?_, ?_⟩
  · intro s2 m2 tr h
    simp only [h]
    rw [(cycIdxLoop_ok h).2]
  · intro hn
    subst hn
    simp only [cycIdxLoop]
  · intro hn hk
    subst hn
    subst hk
    intro i j hi hj
    simp only [cycIdxLoop]
    simp [Outcome.stOf, zeroCycles, hi, hj]

/-- C7 witness: a stream whose cycle count is 0 (`version = 0x193`,
`keepdata = true`): the committed cycle table is entirely zero. -/
theorem claim_C7_witness :
    (∀ s2 m2 tr, cycIdxLoop 0 0 [] (zeroCycles st0.misc) = MRes.ok s2 m2 tr →
      cyclePhase 0x193 true [0, 0] st0 =
        .ok s2 (if true then { st0 with misc := m2 } else st0)
          (Ev.cycCount 0 :: cycSpecTrace 0 0)) ∧
    ((0 : Nat) = 0 → cyclePhase 0x193 true [0, 0] st0 =
      .ok [] (if true then { st0 with misc := zeroCycles st0.misc } else st0) [Ev.cycCount 0]) ∧
    ((0 : Nat) = 0 → true = true → ∀ i j, i < 256 → j < 3 →
      (cyclePhase 0x193 true [0, 0] st0).stOf.misc.cycles i j = ⟨0, 0, 0⟩) :=
  claim_C7 0x193 true [0, 0] [] st0 0 (by decide) (by decide)

end ZplLoad

namespace ZplLoad

theorem pfread_eq (n : Nat) (s : Bytes) :
    pfread n s = if n ≤ s.length then some (s.take n, s.drop n) else none := by
  induction n generalizing s with
  | zero => simp [pfread]
  | succ n ih =>
    cases s with
    | nil => simp [pfread]
    | cons b s =>
      simp only [pfread, ih s]
      by_cases h : n ≤ s.length
      · simp [h]
      · simp [h]

theorem nameLoop_ok_char (c : Consts) :
    ∀ (n i0 : Nat) (s : Bytes) (st : St) (s' : Bytes) (st' : St) (tr : List Ev),
      nameLoop c true i0 n s st = .ok s' st' tr →
      tr = nameSpecTrace i0 n ∧
      (∀ i k, (i < i0 ∨ i0 + n ≤ i ∨ c.PALNAMESIZE ≤ k) →
        st'.palnames i k = st.palnames i k) ∧
      (∀ m k, m < n → k < c.PALNAMESIZE →
        st'.palnames (i0 + m) k = s.getD (m * c.PALNAMESIZE + k) 0) := by
  intro n
  induction n with
  | zero =>
    intro i0 s st s' st' tr h
    simp only [nameLoop] at h
    injection h with h1 h2 h3
    subst h1
    subst h2
    subst h3
    exact ⟨rfl, fun i k _ => rfl, fun m k hm _ => absurd hm (Nat.not_lt_zero m)⟩
  | succ n ih =>
    intro i0 s st s' st' tr h
    simp only [nameLoop, eq_self_iff_true, ite_true] at h
    cases hp : pfread c.PALNAMESIZE s with
    | none => simp [hp] at h
    | some x =>
      obtain ⟨bs, s1⟩ := x
      have hple : c.PALNAMESIZE ≤ s.length ∧ bs = s.take c.PALNAMESIZE ∧ s1 = s.drop c.PALNAMESIZE := by
        rw [pfread_eq] at hp
        by_cases hl : c.PALNAMESIZE ≤ s.length
        · rw [if_pos hl] at hp
          injection hp with hp1
          injection hp1 with hpa hpb
          exact ⟨hl, hpa.symm, hpb.symm⟩
        · rw [if_neg hl] at hp
          exact absurd hp (by simp)
      obtain ⟨hl, hbs, hs1⟩ := hple
      simp only [hp] at h
      cases hrec : nameLoop c true (i0 + 1) n s1
          { st with palnames := fun i k =>
              if i = i0 ∧ k < c.PALNAMESIZE then bs.getD k 0 else st.palnames i k } with
      | invalid st2 tr2 => rw [hrec] at h; simp [prependTr] at h
      | ok s2 st2 tr2 =>
        rw [hrec] at h
        simp only [prependTr] at h
        injection h with h1 h2 h3
        subst h1
        subst h2
        subst h3
        obtain ⟨htr, hframe, hread⟩ := ih (i0 + 1) s1 _ _ _ _ hrec
        refine ⟨by simp [nameSpecTrace, htr], ?_, ?_⟩
        · intro i k hcond
          have hc1 : i < i0 + 1 ∨ i0 + 1 + n ≤ i ∨ c.PALNAMESIZE ≤ k := by omega
          rw [hframe i k hc1]
          have : ¬(i = i0 ∧ k < c.PALNAMESIZE) := by omega
          simp only [this, if_false]
        · intro m k hm hk
          cases m with
          | zero =>
            have hc1 : i0 + 0 < i0 + 1 ∨ i0 + 1 + n ≤ i0 + 0 ∨ c.PALNAMESIZE ≤ k :=
              Or.inl (by omega)
            rw [hframe (i0 + 0) k hc1]
            have hcond : i0 + 0 = i0 ∧ k < c.PALNAMESIZE := ⟨by omega, hk⟩
            simp only [hcond, if_true, eq_self_iff_true, and_true, hk, if_pos]
            subst hbs
            rw [List.getD_eq_getElem?_getD, List.getD_eq_getElem?_getD,
              List.getElem?_take_of_lt hk]
            simp
          | succ m' =>
            have hm' : m' < n := by omega
            have := hread m' k hm' hk
            have harith : i0 + (m' + 1) = i0 + 1 + m' := by omega
            rw [harith, this]
            subst hs1
            rw [List.getD_eq_getElem?_getD, List.getD_eq_getElem?_getD, List.getElem?_drop]
            have : c.PALNAMESIZE + (m' * c.PALNAMESIZE + k) = (m' + 1) * c.PALNAMESIZE + k := by
              ring
            rw [this]

end ZplLoad

namespace ZplLoad

theorem namePhase_ok_char (c : Consts) (sv v b : Nat) (s : Bytes) (st : St)
    (hb : legacyNameBranch v b = false) :
    ∀ s' st' tr, namePhase c sv v b true s st = .ok s' st' tr →
      tr = nameSpecTrace 0 (palnamesToRead c sv) ∧
      ∀ i k, i < c.MAXLEVELS → k < c.PALNAMESIZE →
        st'.palnames i k =
          if i < palnamesToRead c sv then s.getD (i * c.PALNAMESIZE + k) 0 else 0 := by
  intro s' st' tr h
  unfold namePhase at h
  rw [hb] at h
  simp only [Bool.false_eq_true, if_false, eq_self_iff_true, ite_true] at h
  cases hnl : nameLoop c true 0 (palnamesToRead c sv) s st with
  | invalid st1 tr1 =>
    rw [hnl] at h
    simp [Outcome.bind] at h
  | ok s1 st1 tr1 =>
    rw [hnl] at h
    simp only [bind_ok, prependTr] at h
    injection h with h1 h2 h3
    subst h1
    subst h2
    subst h3
    obtain ⟨htr, hframe, hread⟩ := nameLoop_ok_char c (palnamesToRead c sv) 0 s st s1 st1 tr1 hnl
    refine ⟨by simp [htr], ?_⟩
    intro i k hiM hkP
    by_cases hin : i < palnamesToRead c sv
    · have hzf : ¬(palnamesToRead c sv ≤ i ∧ i < c.MAXLEVELS ∧ k < c.PALNAMESIZE) := by omega
      simp only [hzf, if_false, hin, if_pos]
      have := hread i k hin hkP
      simpa using this
    · have hzf : palnamesToRead c sv ≤ i ∧ i < c.MAXLEVELS ∧ k < c.PALNAMESIZE :=
        ⟨by omega, hiM, hkP⟩
      simp [hzf, hin]

/-- C8: whenever `version > 0x192`, or `version = 0x192` with `build ≥ 76`,
the name step reads `OLDMAXLEVELS` records if the section sub-version is `< 3`
and 512 otherwise (`palnamesToRead`); on success with `keepdata = true` the
trace lists exactly those reads in order, each read record is committed into
its destination row, and every destination row from the read count up to
`MAXLEVELS` is zero-filled — so the committed name table is fully defined up
to `MAXLEVELS`. -/
theorem claim_C8 (c : Consts) (sv v b : Nat) (s : Bytes) (st : St)
    (hvb : 0x192 < v ∨ (v = 0x192 ∧ 76 ≤ b)) :
    palnamesToRead c sv = (if sv < 3 then c.OLDMAXLEVELS else 512) ∧
    ∀ s' st' tr, namePhase c sv v b true s st = .ok s' st' tr →
      tr = nameSpecTrace 0 (palnamesToRead c sv) ∧
      ∀ i k, i < c.MAXLEVELS → k < c.PALNAMESIZE →
        st'.palnames i k =
          if i < palnamesToRead c sv then s.getD (i * c.PALNAMESIZE + k) 0 else 0 := by
  have hb : legacyNameBranch v b = false := by
    simp only [legacyNameBranch, decide_eq_false_iff_not]
    omega
  exact ⟨rfl, namePhase_ok_char c sv v b s st hb⟩

/-- C8 witness: the name step at `version = 0x192`, `build = 76`,
sub-version 0, on a one-byte stream holding the single stored name record. -/
theorem claim_C8_witness :
    palnamesToRead c0 0 = (if (0 : Nat) < 3 then c0.OLDMAXLEVELS else 512) ∧
    ∀ s' st' tr, namePhase c0 0 0x192 76 true [42] st0 = .ok s' st' tr →
      tr = nameSpecTrace 0 (palnamesToRead c0 0) ∧
      ∀ i k, i < c0.MAXLEVELS → k < c0.PALNAMESIZE →
        st'.palnames i k =
          if i < palnamesToRead c0 0 then ([42] : Bytes).getD (i * c0.PALNAMESIZE + k) 0 else 0 :=
  claim_C8 c0 0 0x192 76 [42] st0 (Or.inr ⟨rfl, by decide⟩)

end ZplLoad

namespace ZplLoad

set_option maxHeartbeats 4000000 in
theorem legacyRelocate_eq_spec (c : Consts) (a : Nat → Nat)
    (h : c.oldpoSPRITE + 30 ≤ c.newerpoSPRITE) :
    legacyRelocate c a = legacyRelocSpec c a := by
  obtain ⟨t1, t2, t3, O, np, N, m1, m2, m3⟩ := c
  simp only at h
  funext k
  simp only [legacyRelocate, legacyRelocSpec, memcpyF, memsetF]
  split_ifs <;> first | rfl | omega | (exfalso; omega) | (congr 1; omega)

end ZplLoad

namespace ZplLoad

/-- C6: on the legacy branch (`version < 0x192`, or `version = 0x192` with
`build < 73`), the step after the base-record loop performs exactly the legacy
migration and nothing else: with `keepdata` the color table becomes
`legacyRelocSpec` of its previous contents (the 30×16×3-byte block moved from
the old sprite offset to the new one, the vacated gap zero-filled, slots 9–11
past the new offset each holding their predecessor's record, slot 8
zero-filled), the stream is returned untouched (no additional bytes read, no
read events in the trace), and without `keepdata` nothing happens at all.
The non-overlap hypothesis `oldpoSPRITE + 30 ≤ newerpoSPRITE` makes the C
`memcpy` of the 30-record block well-defined. -/
theorem claim_C6 (c : Consts) (sv v b : Nat) (s : Bytes) (st : St)
    (hc : c.oldpoSPRITE + 30 ≤ c.newerpoSPRITE)
    (hv : legacyColorBranch v b = true) :
    colorStep3 c sv v b true s st =
      .ok s { st with colordata := legacyRelocSpec c st.colordata } [Ev.relocLegacy] ∧
    colorStep3 c sv v b false s st = .ok s st [] := by
  constructor
  · unfold colorStep3
    rw [if_pos hv]
    simp only [eq_self_iff_true, ite_true]
    rw [legacyRelocate_eq_spec c st.colordata hc]
  · unfold colorStep3
    rw [if_pos hv]
    rfl

/-- C6 witness: the legacy migration step at `version = 0x190` with the
concrete constants (`oldpoSPRITE = 0`, `newerpoSPRITE = 31`). -/
theorem claim_C6_witness :
    colorStep3 c0 0 0x190 0 true [] st0 =
      .ok [] { st0 with colordata := legacyRelocSpec c0 st0.colordata } [Ev.relocLegacy] ∧
    colorStep3 c0 0 0x190 0 false [] st0 = .ok [] st0 [] :=
  claim_C6 c0 0 0x190 0 [] st0 (by decide) (by decide)

end ZplLoad
